import Mathlib

/-!
# Shallow embedding of `vidtoolkit-rs` (src/src/main.rs)

The program is a CLI that walks directory trees, selects video files by
extension and by external probe results, and dispatches external tools
(ffprobe, HandBrakeCLI, mkvmerge, faster-whisper-xxl) on the selection.

Modelling choices:
* A filesystem path is a list of components (`Path`); `display` joins them
  with "/" as Rust's `Path::display` does for the paths the program builds.
* The reachable filesystem is an inductive tree (`FsEntry` for directory
  entries, `RootFs` for what a CLI root path resolves to).  A directory
  carries a `readable` flag: `false` models `fs::read_dir` returning `Err`.
  `RootFs.missing` models `fs::metadata` failing (`Path::exists` = false);
  `RootFs.special` models a path whose metadata is `Ok` but which is neither
  a regular file nor a directory.
* External subprocesses are oracles in `Env`: for each tool, the stdout the
  program would observe (`none` models a launch failure, which the Rust code
  turns into a panic via `.expect`).  Panics are modelled as `Except.error`.
* Every side effect (subprocess launch, rename/remove, println) is recorded
  as an `Event` in program order, so temporal claims are statements about
  the produced trace.
-/

namespace Vidtoolkit

/-- A filesystem path, as a list of components (root-first). -/
abbrev Path := List String

/-- Rust `Path::display` on the paths the program manipulates. -/
def display (p : Path) : String := String.intercalate "/" p

/-- Last component of a path (the file name `Path::file_name` would report). -/
def lastComp : Path → String
  | [] => ""
  | [x] => x
  | _ :: xs => lastComp xs

/-- Split a file name's characters (those after the first character) at the
last `.`: returns the parts strictly before and after that dot. -/
def splitAtLastDot : List Char → Option (List Char × List Char)
  | [] => none
  | c :: cs =>
    match splitAtLastDot cs with
    | some (b, a) => some (c :: b, a)
    | none => if c = '.' then some ([], cs) else none

/-- Rust `Path::file_stem` / `Path::extension` on a file name: the extension
is the part after the last `.`, except that a leading `.` (hidden file with
no other dot) yields no extension. Returns (stem, extension?). -/
def rustSplitName (name : String) : String × Option String :=
  match name.toList with
  | [] => (name, none)
  | c :: cs =>
    match splitAtLastDot cs with
    | none => (name, none)
    | some (b, a) => (String.mk (c :: b), some (String.mk a))

/-- Rust `Path::extension` of a file name. -/
def rustExtension (name : String) : Option String := (rustSplitName name).2

/-- Rust `Path::file_stem` of a file name. -/
def rustStem (name : String) : String := (rustSplitName name).1

/-- Lowercasing as used on extensions (`str::to_lowercase`); the accepted
extensions are ASCII, where `Char.toLower` agrees with Rust. -/
def strLower (s : String) : String := String.mk (s.toList.map Char.toLower)

/-- Whitespace trimming as used on the probe's stdout (`str::trim`). -/
def strTrim (s : String) : String :=
  String.mk
    (((s.toList.dropWhile Char.isWhitespace).reverse.dropWhile
        Char.isWhitespace).reverse)

/-- Rust `Path::with_file_name`: replace the last component. -/
def withFileName (p : Path) (n : String) : Path := p.dropLast ++ [n]

/-- Rust `PathBuf::set_extension`: replace (or add) the extension of the
last component. -/
def setExtension (p : Path) (e : String) : Path :=
  p.dropLast ++ [rustStem (lastComp p) ++ "." ++ e]

/-- Rust `Path::parent`: drop the last component; `none` when there is none. -/
def parentDir (p : Path) : Option Path :=
  if p.isEmpty then none else some p.dropLast

/-- The parsed CLI flags (struct `Cli` in main.rs). -/
structure Cli where
  paths : List String
  debug : Bool
  dry_run : Bool
  include_h264 : Bool
  no_transcode : Bool
  gen_subs : Bool
deriving Repr, DecidableEq

/-- Oracles for the external world: for each tool invocation keyed by the
relevant path, the stdout the program observes (`none` = the process could
not be launched, so `.output()` is an `Err` and `.expect` panics), plus
sidecar-file existence, the current working directory, and abstract contents
produced by the transcode / mux tools (used only by the filesystem
semantics of the recorded events). -/
structure Env where
  codecStdout : Path → Option String
  subsStdout : Path → Option String
  srtExists : Path → Bool
  handbrakeStdout : Path → Option String
  mkvmergeStdout : Path → Option String
  currentDir : Option Path
  transcodeContent : Path → String
  muxContent : Path → Path → String

/-- One observable side effect, in program order. -/
inductive Event where
  | runFfprobeCodec (video : Path)
  | runFfprobeSubs (video : Path)
  | runHandBrake (video temp preset : Path)
  | runMkvmerge (newFile video temp : Path)
  | runWhisper (video outDir : Path)
  | fsRename (src dst : Path)
  | fsRemove (p : Path)
  | printLine (s : String)
deriving Repr, DecidableEq

/-- A directory entry reachable during the walk. -/
inductive FsEntry where
  | file (name : String)
  | dir (name : String) (readable : Bool) (entries : List FsEntry)

/-- What a root path given on the command line resolves to. -/
inductive RootFs where
  | missing (err : String)
  | special
  | file
  | dir (readable : Bool) (entries : List FsEntry)

/-- The result of a fragment of the program: either a panic message
(`Except.error`) or a value together with the trace of side effects. -/
abbrev Res (α : Type) := Except String (α × List Event)

/-- `check_for_h264` (main.rs:39-60): run ffprobe asking for the primary
video stream's codec name; if stdout is non-empty, report whether its trim
equals "h264", otherwise report false.  A launch failure panics. -/
def check_for_h264 (env : Env) (video : Path) : Res Bool :=
  match env.codecStdout video with
  | none => .error "No Output from Command."
  | some out =>
    if out.length > 0 then
      .ok (strTrim out == "h264", [.runFfprobeCodec video])
    else
      .ok (false, [.runFfprobeCodec video])

/-- `check_for_subs` (main.rs:62-92): run ffprobe asking for subtitle stream
indices; non-empty stdout means embedded subs exist; otherwise check for a
sidecar `.srt` file.  A launch failure panics. -/
def check_for_subs (env : Env) (video : Path) : Res Bool :=
  match env.subsStdout video with
  | none => .error "No Output from Command."
  | some out =>
    if out.length > 0 then
      .ok (true, [.runFfprobeSubs video])
    else
      .ok (env.srtExists (setExtension video "srt"), [.runFfprobeSubs video])

/-- The accepted-extension list `valid_extension` (main.rs:153-161,206-214). -/
def valid_extension : List String :=
  ["mp4", "mkv", "avi", "mov", "wmv", "flv", "webm"]

/-- The panic message of the `.expect` on `Path::extension` in both walks. -/
def noExtMsg (q : Path) : String :=
  "ERROR | No Extension found for file " ++ display q

/-- Candidate-file logic of `get_videos` at path `q` whose file name has
extension `ext` (main.rs:165-171 and 182-189): force the extension
(panicking when absent), test membership of its lowercase in
`valid_extension`, then either include unconditionally (`include_h264`) or
include exactly when the codec probe reports false. -/
def gvCandidate (env : Env) (cli : Cli) (q : Path) (ext : Option String) :
    Res (List Path) :=
  match ext with
  | none => .error (noExtMsg q)
  | some e =>
    if valid_extension.contains (strLower e) then
      if cli.include_h264 then
        .ok ([q], [])
      else
        match check_for_h264 env q with
        | .error m => .error m
        | .ok (b, evs) => .ok (if b then [] else [q], evs)
    else
      .ok ([], [])

mutual
/-- Body of `get_videos`'s `read_dir` loop for one entry (main.rs:175-191):
descend into sub-directories, otherwise treat the entry as a candidate file. -/
def gvEntry (env : Env) (cli : Cli) (parent : Path) : FsEntry → Res (List Path)
  | .file name => gvCandidate env cli (parent ++ [name]) (rustExtension name)
  | .dir name readable es =>
    if readable then gvEntries env cli (parent ++ [name]) es
    else .ok ([], [])

/-- `get_videos`'s `read_dir` loop over the remaining entries, accumulating
`videos` in order (main.rs:174-192). -/
def gvEntries (env : Env) (cli : Cli) (parent : Path) :
    List FsEntry → Res (List Path)
  | [] => .ok ([], [])
  | e :: rest =>
    match gvEntry env cli parent e with
    | .error m => .error m
    | .ok (vs, evs) =>
      match gvEntries env cli parent rest with
      | .error m => .error m
      | .ok (vs2, evs2) => .ok (vs ++ vs2, evs ++ evs2)
end

/-- `get_videos` (main.rs:150-201) on a root path `p` resolving to `root`:
a metadata failure prints a diagnostic and yields nothing; a regular file is
a single candidate; a directory is walked when `read_dir` succeeds; any
other kind of path yields nothing silently. -/
def get_videos (env : Env) (cli : Cli) (p : Path) (root : RootFs) :
    Res (List Path) :=
  match root with
  | .missing err =>
    .ok ([], [.printLine ("Failed to get metadata for file " ++ display p
        ++ ": " ++ err)])
  | .special => .ok ([], [])
  | .file => gvCandidate env cli p (rustExtension (lastComp p))
  | .dir readable es =>
    if readable then gvEntries env cli p es else .ok ([], [])

/-- Candidate-file logic of `get_videos_without_subs` at path `q` with
extension `ext` (main.rs:216-219 and 230-234): force the extension, test
lowercase membership, include exactly when the subtitle probe reports false. -/
def gwsCandidate (env : Env) (q : Path) (ext : Option String) :
    Res (List Path) :=
  match ext with
  | none => .error (noExtMsg q)
  | some e =>
    if valid_extension.contains (strLower e) then
      match check_for_subs env q with
      | .error m => .error m
      | .ok (b, evs) => .ok (if b then [] else [q], evs)
    else
      .ok ([], [])

mutual
/-- Body of `get_videos_without_subs`'s loop for one entry (main.rs:223-235). -/
def gwsEntry (env : Env) (cli : Cli) (parent : Path) : FsEntry → Res (List Path)
  | .file name => gwsCandidate env (parent ++ [name]) (rustExtension name)
  | .dir name readable es =>
    if readable then gwsEntries env cli (parent ++ [name]) es
    else .ok ([], [])

/-- `get_videos_without_subs`'s loop over the remaining entries (main.rs:222-237). -/
def gwsEntries (env : Env) (cli : Cli) (parent : Path) :
    List FsEntry → Res (List Path)
  | [] => .ok ([], [])
  | e :: rest =>
    match gwsEntry env cli parent e with
    | .error m => .error m
    | .ok (vs, evs) =>
      match gwsEntries env cli parent rest with
      | .error m => .error m
      | .ok (vs2, evs2) => .ok (vs ++ vs2, evs ++ evs2)
end

/-- `get_videos_without_subs` (main.rs:203-241): a root that exists and is a
regular file is a single candidate; a root that exists and is a directory is
walked when `read_dir` succeeds; anything else (including a metadata
failure, where `exists()` is false) yields nothing, silently. -/
def get_videos_without_subs (env : Env) (cli : Cli) (p : Path) (root : RootFs) :
    Res (List Path) :=
  match root with
  | .missing _ => .ok ([], [])
  | .special => .ok ([], [])
  | .file => gwsCandidate env p (rustExtension (lastComp p))
  | .dir readable es =>
    if readable then gwsEntries env cli p es else .ok ([], [])

/-- `convert_video` (main.rs:94-133): transcode next to the source into
`temp_file.mkv` via HandBrakeCLI; when that produced stdout, mux into
`new_file.mkv` via mkvmerge; when that produced stdout, rename the new file
over the source and delete the temp file.  Debug mode echoes each tool's
stdout.  `env::current_dir` failing, or a tool failing to launch, panics. -/
def convert_video (env : Env) (cli : Cli) (video : Path) : Res Unit :=
  let temp_file := withFileName video "temp_file.mkv"
  let new_file := withFileName video "new_file.mkv"
  match env.currentDir with
  | none => .error "ERROR | Could not get current working directory."
  | some cwd =>
    let preset_file := cwd ++ ["presets.json"]
    match env.handbrakeStdout video with
    | none => .error "ERROR | No Output from Command."
    | some hb =>
      let e1 := [Event.runHandBrake video temp_file preset_file]
      if hb.length > 0 then
        let d1 := if cli.debug then [Event.printLine hb] else []
        match env.mkvmergeStdout video with
        | none => .error "ERROR | No Output from Command."
        | some mk =>
          let e2 := [Event.runMkvmerge new_file video temp_file]
          if mk.length > 0 then
            let d2 := if cli.debug then [Event.printLine mk] else []
            .ok ((), e1 ++ d1 ++ e2 ++ d2
                ++ [.fsRename new_file video, .fsRemove temp_file])
          else
            .ok ((), e1 ++ d1 ++ e2)
      else
        .ok ((), e1)

/-- `generate_subtitles` (main.rs:135-148): invoke faster-whisper-xxl with
output into the video's parent directory; the command's result is discarded,
but `Path::parent` returning nothing panics. -/
def generate_subtitles (video : Path) : Res Unit :=
  match parentDir video with
  | none => .error "Failed to get parent directory of video path"
  | some par => .ok ((), [.runWhisper video par])

/-- The dry-run report of the transcode phase (main.rs:250-261). -/
def dryRunTranscodePrints (p : Path) (videos : List Path) : List Event :=
  if videos.length < 1 then
    [.printLine "There are no valid files to be converted."]
  else
    [.printLine ("The Following files WILL be converted in path "
        ++ display p ++ ":")]
      ++ videos.map (fun v => .printLine ("    " ++ display v))
      ++ [.printLine ("Total files to convert: " ++ toString videos.length)]

/-- The dry-run report of the subtitle phase (main.rs:277-288). -/
def dryRunSubsPrints (p : Path) (videos : List Path) : List Event :=
  if videos.length < 1 then
    [.printLine "There are no valid files to have subs generated."]
  else
    [.printLine ("The Following files WILL have subs generated in path "
        ++ display p ++ ":")]
      ++ videos.map (fun v => .printLine ("    " ++ display v))
      ++ [.printLine ("Total files to generate subs for: "
          ++ toString videos.length)]

/-- The transcode loop of `main` (main.rs:264-270): for each selected video,
convert it unless `no_transcode` is set (the flag is re-tested inside the
loop, exactly as in the source). -/
def convertAll (env : Env) (cli : Cli) : List Path → Res Unit
  | [] => .ok ((), [])
  | v :: rest =>
    match (if !cli.no_transcode then convert_video env cli v
           else .ok ((), [])) with
    | .error m => .error m
    | .ok (_, evs) =>
      match convertAll env cli rest with
      | .error m => .error m
      | .ok (_, evs2) => .ok ((), evs ++ evs2)

/-- The subtitle-generation loop of `main` (main.rs:296-301).  The source
distributes the files over a rayon pool of 4 workers; the invocations are
independent, and we model them sequentially in list order (only the
interleaving of trace events differs). -/
def generateAll : List Path → Res Unit
  | [] => .ok ((), [])
  | v :: rest =>
    match generate_subtitles v with
    | .error m => .error m
    | .ok (_, evs) =>
      match generateAll rest with
      | .error m => .error m
      | .ok (_, evs2) => .ok ((), evs ++ evs2)

/-- The per-root-path body of `main`'s loop (main.rs:245-306), for one root
path resolving to `root`: the transcode phase (walk, dry-run report, and the
conversion loop — which the source runs even under `dry_run`), then the
subtitle phase (walk, then either the dry-run report or the generation
loop). -/
def mainStep (env : Env) (cli : Cli) (p : Path) (root : RootFs) : Res Unit :=
  match (if !cli.no_transcode then
          match get_videos env cli p root with
          | .error m => .error m
          | .ok (videos, evsW) =>
            let evsP := if cli.dry_run then dryRunTranscodePrints p videos
                        else []
            match convertAll env cli videos with
            | .error m => .error m
            | .ok (_, evsC) => .ok ((), evsW ++ evsP ++ evsC)
        else .ok ((), []) : Res Unit) with
  | .error m => .error m
  | .ok (_, evs1) =>
    match (if cli.gen_subs then
            match get_videos_without_subs env cli p root with
            | .error m => .error m
            | .ok (videos, evsW) =>
              if cli.dry_run then
                .ok ((), evsW ++ dryRunSubsPrints p videos)
              else
                match generateAll videos with
                | .error m => .error m
                | .ok (_, evsG) => .ok ((), evsW ++ evsG)
          else .ok ((), []) : Res Unit) with
    | .error m => .error m
    | .ok (_, evs2) => .ok ((), evs1 ++ evs2)

/-- `main`'s loop over the requested root paths (main.rs:245-306), each
given together with what it resolves to on the filesystem. -/
def mainLoop (env : Env) (cli : Cli) : List (Path × RootFs) → Res Unit
  | [] => .ok ((), [])
  | (p, root) :: rest =>
    match mainStep env cli p root with
    | .error m => .error m
    | .ok (_, evs) =>
      match mainLoop env cli rest with
      | .error m => .error m
      | .ok (_, evs2) => .ok ((), evs ++ evs2)

/-! ## Derived notions used in the statements -/

/-- A file name whose (Rust) extension exists and whose lowercase form is in
the accepted set. -/
def acceptedName (name : String) : Bool :=
  match rustExtension name with
  | some e => valid_extension.contains (strLower e)
  | none => false

/-- A path whose last component has an accepted extension. -/
def hasAcceptedExt (q : Path) : Bool := acceptedName (lastComp q)

mutual
/-- The accepted-extension files an entry contributes to the traversal
(descending only into readable directories), in traversal order. -/
def acceptedEntry (parent : Path) : FsEntry → List Path
  | .file name =>
    if acceptedName name then [parent ++ [name]] else []
  | .dir name readable es =>
    if readable then acceptedEntries (parent ++ [name]) es else []

/-- `acceptedEntry` over a list of entries. -/
def acceptedEntries (parent : Path) : List FsEntry → List Path
  | [] => []
  | e :: rest => acceptedEntry parent e ++ acceptedEntries parent rest
end

/-- The accepted-extension files the walk of a root can reach. -/
def acceptedRoot (p : Path) (root : RootFs) : List Path :=
  match root with
  | .missing _ => []
  | .special => []
  | .file => if hasAcceptedExt p then [p] else []
  | .dir readable es => if readable then acceptedEntries p es else []

mutual
/-- The first candidate file in traversal order whose name has no extension
(the file whose `.expect` would panic first), if any. -/
def firstNoExtEntry (parent : Path) : FsEntry → Option Path
  | .file name =>
    match rustExtension name with
    | none => some (parent ++ [name])
    | some _ => none
  | .dir name readable es =>
    if readable then firstNoExtEntries (parent ++ [name]) es else none

/-- `firstNoExtEntry` over a list of entries. -/
def firstNoExtEntries (parent : Path) : List FsEntry → Option Path
  | [] => none
  | e :: rest =>
    match firstNoExtEntry parent e with
    | some q => some q
    | none => firstNoExtEntries parent rest
end

/-- The first extension-less candidate of a whole root. -/
def firstNoExtRoot (p : Path) (root : RootFs) : Option Path :=
  match root with
  | .missing _ => none
  | .special => none
  | .file =>
    match rustExtension (lastComp p) with
    | none => some p
    | some _ => none
  | .dir readable es =>
    if readable then firstNoExtEntries p es else none

/-- Events that are subprocess launches. -/
def isExternalInvocationEv : Event → Bool
  | .runFfprobeCodec _ => true
  | .runFfprobeSubs _ => true
  | .runHandBrake _ _ _ => true
  | .runMkvmerge _ _ _ => true
  | .runWhisper _ _ => true
  | _ => false

/-- Events that are codec-probe (ffprobe) launches. -/
def isCodecProbeEv : Event → Bool
  | .runFfprobeCodec _ => true
  | _ => false

/-- Events that are mkvmerge launches. -/
def isMkvmergeEv : Event → Bool
  | .runMkvmerge _ _ _ => true
  | _ => false

/-- Events that are HandBrakeCLI launches. -/
def isHandBrakeEv : Event → Bool
  | .runHandBrake _ _ _ => true
  | _ => false

/-- Events that rename or remove a file. -/
def isFsMutationEv : Event → Bool
  | .fsRename _ _ => true
  | .fsRemove _ => true
  | _ => false

/-- Events that print a line. -/
def isPrintEv : Event → Bool
  | .printLine _ => true
  | _ => false

/-- Pointwise update of a modelled directory state. -/
def updateFs (st : Path → Option String) (p : Path) (c : Option String) :
    Path → Option String :=
  fun q => if q = p then c else st q

/-- Effect of one event on the modelled file contents: HandBrakeCLI writes
its output container, mkvmerge writes its output container, rename moves
contents, remove deletes; probes and prints change nothing. -/
def stepFs (env : Env) (st : Path → Option String) : Event → Path → Option String
  | .runHandBrake video temp _ =>
    updateFs st temp (some (env.transcodeContent video))
  | .runMkvmerge newFile video temp =>
    updateFs st newFile (some (env.muxContent video temp))
  | .fsRename src dst =>
    fun q => if q = src then none else if q = dst then st src else st q
  | .fsRemove p => updateFs st p none
  | _ => st

/-- Replay a trace of events over a modelled directory state. -/
def runFs (env : Env) (st : Path → Option String) (evs : List Event) :
    Path → Option String :=
  evs.foldl (stepFs env) st

/-- A concrete environment used by witnesses: every probe launches and
reports a non-h264 codec and no subtitle streams, no sidecar files exist,
and the transcode/mux tools launch and produce non-empty stdout. -/
def envW : Env :=
  { codecStdout := fun _ => some "vp9\n"
    subsStdout := fun _ => some ""
    srtExists := fun _ => false
    handbrakeStdout := fun _ => some "Encode done.\n"
    mkvmergeStdout := fun _ => some "Muxing took 0s.\n"
    currentDir := some ["cwd"]
    transcodeContent := fun _ => "transcoded"
    muxContent := fun _ _ => "muxed" }

/-- The all-flags-off CLI configuration. -/
def cliDef : Cli :=
  { paths := [], debug := false, dry_run := false, include_h264 := false,
    no_transcode := false, gen_subs := false }

/-! ## Basic lemmas -/

theorem lastComp_append (d : Path) (n : String) : lastComp (d ++ [n]) = n := by
  induction d with
  | nil => rfl
  | cons x xs ih => cases xs <;> simp_all [lastComp]

theorem withFileName_append (d : Path) (n m : String) :
    withFileName (d ++ [n]) m = d ++ [m] := by
  simp [withFileName]

/-! ## Claim C5: the codec probe's contract -/

/-- C5: `check_for_h264` returns true iff the probe's trimmed stdout equals
"h264"; empty stdout yields false; a launch failure (no output available)
aborts the run fatally with the panic message of the `.expect`. -/
theorem check_for_h264_contract_c5 (env : Env) (v : Path) :
    (env.codecStdout v = none →
      check_for_h264 env v = .error "No Output from Command.") ∧
    (∀ out, env.codecStdout v = some out →
      ∃ b, check_for_h264 env v = .ok (b, [.runFfprobeCodec v]) ∧
        (b = true ↔ strTrim out = "h264") ∧ (out = "" → b = false)) := by
  constructor
  · intro h; simp [check_for_h264, h]
  · intro out h
    by_cases hlen : out.length > 0
    · refine ⟨strTrim out == "h264", ?_, ?_, ?_⟩
      · simp [check_for_h264, h, hlen]
      · simp
      · intro he; subst he; exact absurd hlen (by decide)
    · refine ⟨false, ?_, ?_, ?_⟩
      · simp [check_for_h264, h, hlen]
      · have hout : out = "" := by
          cases out with
          | mk data =>
            cases data with
            | nil => rfl
            | cons c cs => exact absurd (by simp [String.length]) hlen
        subst hout
        simp
        exact fun hh => absurd hh (by decide)
      · intro _; rfl

/-- Closed witness for C5 at a concrete environment and file. -/
theorem check_for_h264_contract_c5_witness :
    ∃ b, check_for_h264 envW ["v.mkv"] =
        .ok (b, [.runFfprobeCodec ["v.mkv"]]) ∧
      (b = true ↔ strTrim "vp9\n" = "h264") ∧ ("vp9\n" = "" → b = false) :=
  (check_for_h264_contract_c5 envW ["v.mkv"]).2 "vp9\n" rfl

/-! ## Claim C10: behaviour on missing / non-regular root paths -/

/-- C10 counterexample: a root path that exists but is neither a regular
file nor a directory.  `get_videos` returns the empty list with an empty
trace — in particular it prints no diagnostic — contradicting the claim
that it emits a diagnostic naming the path for such roots. -/
theorem special_root_c10_counterexample :
    get_videos envW cliDef ["p"] RootFs.special = .ok ([], []) ∧
    get_videos_without_subs envW cliDef ["p"] RootFs.special
      = .ok ([], []) := by
  exact ⟨rfl, rfl⟩

/-- C10 (amended): for a root path whose metadata cannot be read (it does
not exist), `get_videos_without_subs` returns the empty list silently and
without aborting while `get_videos` prints a diagnostic naming the path;
for a root path that exists but is neither a regular file nor a directory,
both walks return the empty list silently. -/
theorem root_diagnostics_c10 (env : Env) (cli : Cli) (p : Path) (e : String) :
    get_videos_without_subs env cli p (.missing e) = .ok ([], []) ∧
    get_videos_without_subs env cli p .special = .ok ([], []) ∧
    get_videos env cli p (.missing e) =
      .ok ([], [.printLine ("Failed to get metadata for file " ++ display p
          ++ ": " ++ e)]) ∧
    get_videos env cli p .special = .ok ([], []) :=
  ⟨rfl, rfl, rfl, rfl⟩

/-! ## Claim C7: unreadable directories -/

/-- C7 counterexample: a walk that hits a directory whose `read_dir` fails
(`readable = false`).  The walk returns with an empty trace — no diagnostic
of any kind is printed for the failed `read_dir` — contradicting the claim
that every directory read failure is reported. -/
theorem unreadable_dir_c7_counterexample :
    get_videos envW { cliDef with include_h264 := true } ["root"]
        (.dir true [.dir "bad" false [.file "a.mp4"], .file "b.mp4"])
      = .ok ([["root", "b.mp4"]], []) := by
  rfl

/-- C7 (amended): a directory whose `read_dir` fails does not abort the
walk and contributes no files, and the walk continues with the remaining
entries exactly as if the directory were absent — but no diagnostic is
emitted for it (the only reported failure is a metadata failure on a root
path of `get_videos`). -/
theorem unreadable_dir_skipped_c7 (env : Env) (cli : Cli) (parent : Path)
    (n : String) (es rest : List FsEntry) :
    gvEntries env cli parent (.dir n false es :: rest)
      = gvEntries env cli parent rest ∧
    gwsEntries env cli parent (.dir n false es :: rest)
      = gwsEntries env cli parent rest := by
  constructor
  · rw [gvEntries]
    cases h : gvEntries env cli parent rest <;> simp [gvEntry, h]
  · rw [gwsEntries]
    cases h : gwsEntries env cli parent rest <;> simp [gwsEntry, h]

/-! ## Claim C8: a lone file vs. a singleton directory -/

/-- C8: for a file with an accepted extension, each walk applied directly
to the file produces exactly the same result (same selection, same trace)
as the walk applied to a directory whose only entry is that file. -/
theorem walk_singleton_c8 (env : Env) (cli : Cli) (d : Path) (name : String)
    (_h : acceptedName name = true) :
    get_videos env cli (d ++ [name]) .file
      = get_videos env cli d (.dir true [.file name]) ∧
    get_videos_without_subs env cli (d ++ [name]) .file
      = get_videos_without_subs env cli d (.dir true [.file name]) := by
  constructor
  · cases hc : gvCandidate env cli (d ++ [name]) (rustExtension name) <;>
      simp [get_videos, gvEntries, gvEntry, lastComp_append, hc]
  · cases hc : gwsCandidate env (d ++ [name]) (rustExtension name) <;>
      simp [get_videos_without_subs, gwsEntries, gwsEntry, lastComp_append, hc]

/-- Closed witness for C8 at a concrete file. -/
theorem walk_singleton_c8_witness :
    acceptedName "a.mp4" = true ∧
    (get_videos envW cliDef ["dir", "a.mp4"] .file
      = get_videos envW cliDef ["dir"] (.dir true [.file "a.mp4"]) ∧
     get_videos_without_subs envW cliDef ["dir", "a.mp4"] .file
      = get_videos_without_subs envW cliDef ["dir"]
          (.dir true [.file "a.mp4"])) :=
  ⟨by decide, walk_singleton_c8 envW cliDef ["dir"] "a.mp4" (by decide)⟩

/-! ## Claim C4: the transcode dispatcher's step gating -/

theorem length_pos_iff_ne_empty (s : String) : s.length > 0 ↔ s ≠ "" := by
  cases s with
  | mk data =>
    cases data with
    | nil => simp [String.length]
    | cons c cs =>
      simp only [String.length]
      constructor
      · intro _ he
        have : (String.mk (c :: cs)).data = ("" : String).data := by rw [he]
        simp at this
      · intro _; simp

/-- C4: `convert_video` gates each step on the previous subprocess's stdout
being non-empty: an empty HandBrakeCLI stdout stops after the HandBrakeCLI
launch alone; an empty mkvmerge stdout stops before any rename/remove; any
trace containing an mkvmerge launch had non-empty HandBrakeCLI stdout, and
any trace containing a rename/remove had both stdouts non-empty; and when
both are non-empty the produced trace, replayed over any sibling directory
state, leaves the source path holding the mux output and leaves neither
`temp_file.mkv` nor `new_file.mkv` behind. -/
theorem convert_video_gating_c4 (env : Env) (cli : Cli) (d cwd : Path)
    (name : String)
    (hn1 : name ≠ "temp_file.mkv") (hn2 : name ≠ "new_file.mkv")
    (hcwd : env.currentDir = some cwd) :
    (env.handbrakeStdout (d ++ [name]) = some "" →
      convert_video env cli (d ++ [name]) =
        .ok ((), [.runHandBrake (d ++ [name]) (d ++ ["temp_file.mkv"])
            (cwd ++ ["presets.json"])])) ∧
    (∀ hb, env.handbrakeStdout (d ++ [name]) = some hb → hb ≠ "" →
      env.mkvmergeStdout (d ++ [name]) = some "" →
      convert_video env cli (d ++ [name]) =
        .ok ((), [.runHandBrake (d ++ [name]) (d ++ ["temp_file.mkv"])
              (cwd ++ ["presets.json"])]
            ++ (if cli.debug then [.printLine hb] else [])
            ++ [.runMkvmerge (d ++ ["new_file.mkv"]) (d ++ [name])
                (d ++ ["temp_file.mkv"])])) ∧
    (∀ evs, convert_video env cli (d ++ [name]) = .ok ((), evs) →
      (evs.any isMkvmergeEv = true →
        ∃ hb, env.handbrakeStdout (d ++ [name]) = some hb ∧ hb ≠ "") ∧
      (evs.any isFsMutationEv = true →
        (∃ hb, env.handbrakeStdout (d ++ [name]) = some hb ∧ hb ≠ "") ∧
        (∃ mk, env.mkvmergeStdout (d ++ [name]) = some mk ∧ mk ≠ ""))) ∧
    (∀ hb mk, env.handbrakeStdout (d ++ [name]) = some hb → hb ≠ "" →
      env.mkvmergeStdout (d ++ [name]) = some mk → mk ≠ "" →
      ∃ evs, convert_video env cli (d ++ [name]) = .ok ((), evs) ∧
        ∀ st : Path → Option String,
          runFs env st evs (d ++ [name])
              = some (env.muxContent (d ++ [name]) (d ++ ["temp_file.mkv"]))
            ∧ runFs env st evs (d ++ ["temp_file.mkv"]) = none
            ∧ runFs env st evs (d ++ ["new_file.mkv"]) = none) := by
  have hvt : (d ++ [name]) ≠ (d ++ ["temp_file.mkv"]) := by
    simp [hn1]
  have hvn : (d ++ [name]) ≠ (d ++ ["new_file.mkv"]) := by
    simp [hn2]
  have htn : (d ++ ["temp_file.mkv"]) ≠ (d ++ ["new_file.mkv"]) := by
    simp
  refine ⟨?_, ?_, ?_, ?_⟩
  · intro h
    simp [convert_video, hcwd, h, withFileName]
  · intro hb h hne hmk
    have hlen : hb.length > 0 := (length_pos_iff_ne_empty hb).mpr hne
    simp [convert_video, hcwd, h, hmk, hlen, withFileName]
  · intro evs h
    cases hhb : env.handbrakeStdout (d ++ [name]) with
    | none => simp [convert_video, hcwd, hhb] at h
    | some hb =>
      by_cases hlen : hb.length > 0
      · cases hmk : env.mkvmergeStdout (d ++ [name]) with
        | none => simp [convert_video, hcwd, hhb, hlen, hmk] at h
        | some mk =>
          refine ⟨fun _ => ⟨hb, rfl, (length_pos_iff_ne_empty hb).mp hlen⟩,
            ?_⟩
          by_cases hmlen : mk.length > 0
          · intro _
            exact ⟨⟨hb, rfl, (length_pos_iff_ne_empty hb).mp hlen⟩,
              ⟨mk, rfl, (length_pos_iff_ne_empty mk).mp hmlen⟩⟩
          · intro hmut
            exfalso
            simp [convert_video, hcwd, hhb, hlen, hmk, hmlen,
              withFileName] at h
            subst h
            revert hmut
            by_cases hd : cli.debug <;> simp [hd, isFsMutationEv]
      · simp [convert_video, hcwd, hhb, hlen] at h
        subst h
        constructor
        · intro hm
          exact absurd hm (by simp [isMkvmergeEv])
        · intro hm
          exact absurd hm (by simp [isFsMutationEv])
  · intro hb mk hhb hbne hmk hmkne
    have hlen : hb.length > 0 := (length_pos_iff_ne_empty hb).mpr hbne
    have hmlen : mk.length > 0 := (length_pos_iff_ne_empty mk).mpr hmkne
    have hEq : convert_video env cli (d ++ [name]) =
        .ok ((), [Event.runHandBrake (d ++ [name]) (d ++ ["temp_file.mkv"])
              (cwd ++ ["presets.json"])]
            ++ (if cli.debug then [Event.printLine hb] else [])
            ++ [Event.runMkvmerge (d ++ ["new_file.mkv"]) (d ++ [name])
                (d ++ ["temp_file.mkv"])]
            ++ (if cli.debug then [Event.printLine mk] else [])
            ++ [Event.fsRename (d ++ ["new_file.mkv"]) (d ++ [name]),
                Event.fsRemove (d ++ ["temp_file.mkv"])]) := by
      by_cases hd : cli.debug <;>
        simp [convert_video, hcwd, hhb, hmk, hlen, hmlen, withFileName, hd]
    refine ⟨_, hEq, ?_⟩
    intro st
    by_cases hd : cli.debug <;>
      simp [hd, runFs, stepFs, updateFs, hn1, hn2, hvt, hvn, htn,
        Ne.symm hvt, Ne.symm hvn, Ne.symm htn]

/-- Closed witness for C4: a fully successful conversion at a concrete
environment, with the final-state facts for an arbitrary starting state. -/
theorem convert_video_gating_c4_witness :
    ∃ evs, convert_video envW cliDef (["d"] ++ ["a.mkv"]) = .ok ((), evs) ∧
      ∀ st : Path → Option String,
        runFs envW st evs (["d"] ++ ["a.mkv"])
            = some (envW.muxContent (["d"] ++ ["a.mkv"])
                (["d"] ++ ["temp_file.mkv"]))
          ∧ runFs envW st evs (["d"] ++ ["temp_file.mkv"]) = none
          ∧ runFs envW st evs (["d"] ++ ["new_file.mkv"]) = none :=
  (convert_video_gating_c4 envW cliDef ["d"] ["cwd"] "a.mkv" (by decide)
      (by decide) rfl).2.2.2 "Encode done.\n" "Muxing took 0s.\n" rfl
    (by decide) rfl (by decide)

/-! ## Claim C1: what dry-run mode actually does -/

/-- The CLI configuration of the C1 failing input: `--dry-run
--include-h264` with the transcode phase enabled. -/
def cliC1 : Cli :=
  { paths := ["d"], debug := false, dry_run := true, include_h264 := true,
    no_transcode := false, gen_subs := false }

/-- C1 (code bug): with the dry-run flag set, `main` still launches
external tools.  On a directory containing one selectable video the run
prints the would-be-converted report and then launches HandBrakeCLI and
mkvmerge on the file anyway: the `dry_run` test before the conversion loop
(main.rs:250) only adds printing and has no `else`, so the loop at
main.rs:264-270 still calls `convert_video`. -/
theorem dry_run_still_transcodes_c1 :
    cliC1.dry_run = true ∧
    ∃ evs, mainLoop envW cliC1 [(["d"], .dir true [.file "a.mp4"])]
        = .ok ((), evs) ∧
      evs.any isHandBrakeEv = true ∧
      evs.any isMkvmergeEv = true ∧
      evs.any isExternalInvocationEv = true := by
  exact ⟨rfl, _, rfl, rfl, rfl, rfl⟩

/-! ## Claim C9: the subtitle walk ignores `include_h264` -/

mutual
theorem gwsEntry_config_free (env : Env) (c1 c2 : Cli) (parent : Path) :
    (e : FsEntry) → gwsEntry env c1 parent e = gwsEntry env c2 parent e
  | .file _ => rfl
  | .dir name readable es => by
    simp only [gwsEntry]
    rw [gwsEntries_config_free env c1 c2 (parent ++ [name]) es]

theorem gwsEntries_config_free (env : Env) (c1 c2 : Cli) (parent : Path) :
    (es : List FsEntry) →
      gwsEntries env c1 parent es = gwsEntries env c2 parent es
  | [] => rfl
  | e :: rest => by
    simp only [gwsEntries]
    rw [gwsEntry_config_free env c1 c2 parent e,
      gwsEntries_config_free env c1 c2 parent rest]
end

/-- C9: `get_videos_without_subs` is independent of the `include_h264`
flag: flipping that flag (all other configuration equal) leaves its result
— selection and trace — unchanged on every root. -/
theorem gws_independent_of_include_h264_c9 (env : Env) (cli : Cli) (b : Bool)
    (p : Path) (root : RootFs) :
    get_videos_without_subs env { cli with include_h264 := b } p root
      = get_videos_without_subs env cli p root := by
  cases root with
  | missing e => rfl
  | special => rfl
  | file => rfl
  | dir readable es =>
    simp only [get_videos_without_subs]
    rw [gwsEntries_config_free env { cli with include_h264 := b } cli p es]

/-! ## Characterisation of the walks (towards C2 and C3) -/

theorem check_for_h264_ok_events (env : Env) (v : Path) (b : Bool)
    (evs : List Event) (h : check_for_h264 env v = .ok (b, evs)) :
    evs = [.runFfprobeCodec v] := by
  cases hc : env.codecStdout v with
  | none => simp [check_for_h264, hc] at h
  | some out =>
    by_cases hlen : out.length > 0 <;>
      simp [check_for_h264, hc, hlen] at h <;>
      simp [h]

theorem check_for_subs_ok_events (env : Env) (v : Path) (b : Bool)
    (evs : List Event) (h : check_for_subs env v = .ok (b, evs)) :
    evs = [.runFfprobeSubs v] := by
  cases hc : env.subsStdout v with
  | none => simp [check_for_subs, hc] at h
  | some out =>
    by_cases hlen : out.length > 0 <;>
      simp [check_for_subs, hc, hlen] at h <;>
      simp [h]

mutual
theorem gvEntry_include (env : Env) (cli : Cli)
    (hinc : cli.include_h264 = true) (parent : Path) :
    (e : FsEntry) → ∀ res, gvEntry env cli parent e = .ok res →
      res = (acceptedEntry parent e, [])
  | .file name => by
    intro res h
    cases hx : rustExtension name with
    | none => simp [gvEntry, gvCandidate, hx] at h
    | some e0 =>
      by_cases hc : strLower e0 ∈ valid_extension
      · have hEq : gvEntry env cli parent (.file name)
            = .ok ([parent ++ [name]], []) := by
          simp [gvEntry, gvCandidate, hx, hc, hinc]
        rw [hEq] at h
        simp only [Except.ok.injEq] at h
        subst h
        simp [acceptedEntry, acceptedName, hx, hc]
      · have hEq : gvEntry env cli parent (.file name) = .ok ([], []) := by
          simp [gvEntry, gvCandidate, hx, hc]
        rw [hEq] at h
        simp only [Except.ok.injEq] at h
        subst h
        simp [acceptedEntry, acceptedName, hx, hc]
  | .dir name readable es => by
    intro res h
    cases readable with
    | true =>
      simp only [gvEntry, if_true] at h
      have := gvEntries_include env cli hinc (parent ++ [name]) es res h
      simpa [acceptedEntry] using this
    | false =>
      simp only [gvEntry, if_false, Bool.false_eq_true, Except.ok.injEq] at h
      subst h
      simp [acceptedEntry]

theorem gvEntries_include (env : Env) (cli : Cli)
    (hinc : cli.include_h264 = true) (parent : Path) :
    (es : List FsEntry) → ∀ res, gvEntries env cli parent es = .ok res →
      res = (acceptedEntries parent es, [])
  | [] => by
    intro res h
    simp only [gvEntries, Except.ok.injEq] at h
    subst h
    simp [acceptedEntries]
  | e :: rest => by
    intro res h
    simp only [gvEntries] at h
    cases h1 : gvEntry env cli parent e with
    | error m => rw [h1] at h; simp at h
    | ok r1 =>
      obtain ⟨vs, evs⟩ := r1
      cases h2 : gvEntries env cli parent rest with
      | error m => rw [h1, h2] at h; simp at h
      | ok r2 =>
        obtain ⟨vs2, evs2⟩ := r2
        rw [h1, h2] at h
        simp only [Except.ok.injEq] at h
        subst h
        have ih1 := gvEntry_include env cli hinc parent e _ h1
        have ih2 := gvEntries_include env cli hinc parent rest _ h2
        simp only [Prod.mk.injEq] at ih1 ih2
        simp [acceptedEntries, ih1.1, ih1.2, ih2.1, ih2.2]
end

mutual
theorem gvEntry_probe (env : Env) (cli : Cli)
    (hinc : cli.include_h264 = false) (parent : Path) :
    (e : FsEntry) → ∀ res, gvEntry env cli parent e = .ok res → ∀ q : Path,
      q ∈ res.1 ↔ (q ∈ acceptedEntry parent e ∧
        check_for_h264 env q = .ok (false, [.runFfprobeCodec q]))
  | .file name => by
    intro res h q
    cases hx : rustExtension name with
    | none => simp [gvEntry, gvCandidate, hx] at h
    | some e0 =>
      by_cases hc : strLower e0 ∈ valid_extension
      · cases hp : check_for_h264 env (parent ++ [name]) with
        | error m => simp [gvEntry, gvCandidate, hx, hc, hinc, hp] at h
        | ok rb =>
          obtain ⟨b, evs⟩ := rb
          have hevs := check_for_h264_ok_events env _ b evs hp
          subst hevs
          have hEq : gvEntry env cli parent (.file name)
              = .ok (if b then [] else [parent ++ [name]],
                  [.runFfprobeCodec (parent ++ [name])]) := by
            simp [gvEntry, gvCandidate, hx, hc, hinc, hp]
          rw [hEq] at h
          simp only [Except.ok.injEq] at h
          subst h
          constructor
          · intro hq
            cases b with
            | true => simp at hq
            | false =>
              simp at hq
              subst hq
              exact ⟨by simp [acceptedEntry, acceptedName, hx, hc], hp⟩
          · rintro ⟨hacc, hchk⟩
            simp [acceptedEntry, acceptedName, hx, hc] at hacc
            subst hacc
            rw [hp] at hchk
            simp only [Except.ok.injEq, Prod.mk.injEq] at hchk
            rw [hchk.1]
            simp
      · have hEq : gvEntry env cli parent (.file name) = .ok ([], []) := by
          simp [gvEntry, gvCandidate, hx, hc]
        rw [hEq] at h
        simp only [Except.ok.injEq] at h
        subst h
        simp [acceptedEntry, acceptedName, hx, hc]
  | .dir name readable es => by
    intro res h q
    cases readable with
    | true =>
      simp only [gvEntry, if_true] at h
      have := gvEntries_probe env cli hinc (parent ++ [name]) es res h q
      simpa [acceptedEntry] using this
    | false =>
      simp only [gvEntry, if_false, Bool.false_eq_true, Except.ok.injEq] at h
      subst h
      simp [acceptedEntry]

theorem gvEntries_probe (env : Env) (cli : Cli)
    (hinc : cli.include_h264 = false) (parent : Path) :
    (es : List FsEntry) → ∀ res, gvEntries env cli parent es = .ok res →
      ∀ q : Path,
      q ∈ res.1 ↔ (q ∈ acceptedEntries parent es ∧
        check_for_h264 env q = .ok (false, [.runFfprobeCodec q]))
  | [] => by
    intro res h q
    simp only [gvEntries, Except.ok.injEq] at h
    subst h
    simp [acceptedEntries]
  | e :: rest => by
    intro res h q
    simp only [gvEntries] at h
    cases h1 : gvEntry env cli parent e with
    | error m => rw [h1] at h; simp at h
    | ok r1 =>
      obtain ⟨vs, evs⟩ := r1
      cases h2 : gvEntries env cli parent rest with
      | error m => rw [h1, h2] at h; simp at h
      | ok r2 =>
        obtain ⟨vs2, evs2⟩ := r2
        rw [h1, h2] at h
        simp only [Except.ok.injEq] at h
        subst h
        have ih1 := gvEntry_probe env cli hinc parent e _ h1 q
        have ih2 := gvEntries_probe env cli hinc parent rest _ h2 q
        simp only [acceptedEntries]
        constructor
        · intro hq
          rcases List.mem_append.mp hq with h' | h'
          · obtain ⟨ha, hk⟩ := ih1.mp h'
            exact ⟨List.mem_append.mpr (Or.inl ha), hk⟩
          · obtain ⟨ha, hk⟩ := ih2.mp h'
            exact ⟨List.mem_append.mpr (Or.inr ha), hk⟩
        · rintro ⟨ha, hk⟩
          rcases List.mem_append.mp ha with h' | h'
          · exact List.mem_append.mpr (Or.inl (ih1.mpr ⟨h', hk⟩))
          · exact List.mem_append.mpr (Or.inr (ih2.mpr ⟨h', hk⟩))
end

mutual
theorem gwsEntry_char (env : Env) (cli : Cli) (parent : Path) :
    (e : FsEntry) → ∀ res, gwsEntry env cli parent e = .ok res → ∀ q : Path,
      q ∈ res.1 ↔ (q ∈ acceptedEntry parent e ∧
        check_for_subs env q = .ok (false, [.runFfprobeSubs q]))
  | .file name => by
    intro res h q
    cases hx : rustExtension name with
    | none => simp [gwsEntry, gwsCandidate, hx] at h
    | some e0 =>
      by_cases hc : strLower e0 ∈ valid_extension
      · cases hp : check_for_subs env (parent ++ [name]) with
        | error m => simp [gwsEntry, gwsCandidate, hx, hc, hp] at h
        | ok rb =>
          obtain ⟨b, evs⟩ := rb
          have hevs := check_for_subs_ok_events env _ b evs hp
          subst hevs
          have hEq : gwsEntry env cli parent (.file name)
              = .ok (if b then [] else [parent ++ [name]],
                  [.runFfprobeSubs (parent ++ [name])]) := by
            simp [gwsEntry, gwsCandidate, hx, hc, hp]
          rw [hEq] at h
          simp only [Except.ok.injEq] at h
          subst h
          constructor
          · intro hq
            cases b with
            | true => simp at hq
            | false =>
              simp at hq
              subst hq
              exact ⟨by simp [acceptedEntry, acceptedName, hx, hc], hp⟩
          · rintro ⟨hacc, hchk⟩
            simp [acceptedEntry, acceptedName, hx, hc] at hacc
            subst hacc
            rw [hp] at hchk
            simp only [Except.ok.injEq, Prod.mk.injEq] at hchk
            rw [hchk.1]
            simp
      · have hEq : gwsEntry env cli parent (.file name) = .ok ([], []) := by
          simp [gwsEntry, gwsCandidate, hx, hc]
        rw [hEq] at h
        simp only [Except.ok.injEq] at h
        subst h
        simp [acceptedEntry, acceptedName, hx, hc]
  | .dir name readable es => by
    intro res h q
    cases readable with
    | true =>
      simp only [gwsEntry, if_true] at h
      have := gwsEntries_char env cli (parent ++ [name]) es res h q
      simpa [acceptedEntry] using this
    | false =>
      simp only [gwsEntry, if_false, Bool.false_eq_true, Except.ok.injEq] at h
      subst h
      simp [acceptedEntry]

theorem gwsEntries_char (env : Env) (cli : Cli) (parent : Path) :
    (es : List FsEntry) → ∀ res, gwsEntries env cli parent es = .ok res →
      ∀ q : Path,
      q ∈ res.1 ↔ (q ∈ acceptedEntries parent es ∧
        check_for_subs env q = .ok (false, [.runFfprobeSubs q]))
  | [] => by
    intro res h q
    simp only [gwsEntries, Except.ok.injEq] at h
    subst h
    simp [acceptedEntries]
  | e :: rest => by
    intro res h q
    simp only [gwsEntries] at h
    cases h1 : gwsEntry env cli parent e with
    | error m => rw [h1] at h; simp at h
    | ok r1 =>
      obtain ⟨vs, evs⟩ := r1
      cases h2 : gwsEntries env cli parent rest with
      | error m => rw [h1, h2] at h; simp at h
      | ok r2 =>
        obtain ⟨vs2, evs2⟩ := r2
        rw [h1, h2] at h
        simp only [Except.ok.injEq] at h
        subst h
        have ih1 := gwsEntry_char env cli parent e _ h1 q
        have ih2 := gwsEntries_char env cli parent rest _ h2 q
        simp only [acceptedEntries]
        constructor
        · intro hq
          rcases List.mem_append.mp hq with h' | h'
          · obtain ⟨ha, hk⟩ := ih1.mp h'
            exact ⟨List.mem_append.mpr (Or.inl ha), hk⟩
          · obtain ⟨ha, hk⟩ := ih2.mp h'
            exact ⟨List.mem_append.mpr (Or.inr ha), hk⟩
        · rintro ⟨ha, hk⟩
          rcases List.mem_append.mp ha with h' | h'
          · exact List.mem_append.mpr (Or.inl (ih1.mpr ⟨h', hk⟩))
          · exact List.mem_append.mpr (Or.inr (ih2.mpr ⟨h', hk⟩))
end

/-- Root-level form of `gvEntries_include`: with `include_h264` set,
a successful `get_videos` returns exactly the reachable accepted-extension
files and its trace contains no codec-probe launch. -/
theorem get_videos_include_char (env : Env) (cli : Cli)
    (hinc : cli.include_h264 = true) (p : Path) (root : RootFs) :
    ∀ res, get_videos env cli p root = .ok res →
      res.1 = acceptedRoot p root ∧
      ∀ ev ∈ res.2, isCodecProbeEv ev = false := by
  intro res h
  cases root with
  | missing e =>
    simp only [get_videos, Except.ok.injEq] at h
    subst h
    simp [acceptedRoot, isCodecProbeEv]
  | special =>
    simp only [get_videos, Except.ok.injEq] at h
    subst h
    simp [acceptedRoot]
  | file =>
    cases hx : rustExtension (lastComp p) with
    | none => simp [get_videos, gvCandidate, hx] at h
    | some e0 =>
      by_cases hc : strLower e0 ∈ valid_extension
      · have hEq : get_videos env cli p .file = .ok ([p], []) := by
          simp [get_videos, gvCandidate, hx, hc, hinc]
        rw [hEq] at h
        simp only [Except.ok.injEq] at h
        subst h
        simp [acceptedRoot, hasAcceptedExt, acceptedName, hx, hc]
      · have hEq : get_videos env cli p .file = .ok ([], []) := by
          simp [get_videos, gvCandidate, hx, hc]
        rw [hEq] at h
        simp only [Except.ok.injEq] at h
        subst h
        simp [acceptedRoot, hasAcceptedExt, acceptedName, hx, hc]
  | dir readable es =>
    cases readable with
    | true =>
      simp only [get_videos, if_true] at h
      have := gvEntries_include env cli hinc p es res h
      subst this
      simp [acceptedRoot]
    | false =>
      simp only [get_videos, if_false, Bool.false_eq_true,
        Except.ok.injEq] at h
      subst h
      simp [acceptedRoot]

/-- Root-level form of `gvEntries_probe`: with `include_h264` unset, a
successful `get_videos` selects exactly the reachable accepted-extension
files for which the codec probe reports false. -/
theorem get_videos_probe_char (env : Env) (cli : Cli)
    (hinc : cli.include_h264 = false) (p : Path) (root : RootFs) :
    ∀ res, get_videos env cli p root = .ok res → ∀ q : Path,
      q ∈ res.1 ↔ (q ∈ acceptedRoot p root ∧
        check_for_h264 env q = .ok (false, [.runFfprobeCodec q])) := by
  intro res h q
  cases root with
  | missing e =>
    simp only [get_videos, Except.ok.injEq] at h
    subst h
    simp [acceptedRoot]
  | special =>
    simp only [get_videos, Except.ok.injEq] at h
    subst h
    simp [acceptedRoot]
  | file =>
    cases hx : rustExtension (lastComp p) with
    | none => simp [get_videos, gvCandidate, hx] at h
    | some e0 =>
      by_cases hc : strLower e0 ∈ valid_extension
      · cases hp : check_for_h264 env p with
        | error m => simp [get_videos, gvCandidate, hx, hc, hinc, hp] at h
        | ok rb =>
          obtain ⟨b, evs⟩ := rb
          have hevs := check_for_h264_ok_events env _ b evs hp
          subst hevs
          have hEq : get_videos env cli p .file
              = .ok (if b then [] else [p], [.runFfprobeCodec p]) := by
            simp [get_videos, gvCandidate, hx, hc, hinc, hp]
          rw [hEq] at h
          simp only [Except.ok.injEq] at h
          subst h
          constructor
          · intro hq
            cases b with
            | true => simp at hq
            | false =>
              simp at hq
              subst hq
              exact ⟨by simp [acceptedRoot, hasAcceptedExt, acceptedName,
                hx, hc], hp⟩
          · rintro ⟨hacc, hchk⟩
            simp [acceptedRoot, hasAcceptedExt, acceptedName, hx, hc] at hacc
            subst hacc
            rw [hp] at hchk
            simp only [Except.ok.injEq, Prod.mk.injEq] at hchk
            rw [hchk.1]
            simp
      · have hEq : get_videos env cli p .file = .ok ([], []) := by
          simp [get_videos, gvCandidate, hx, hc]
        rw [hEq] at h
        simp only [Except.ok.injEq] at h
        subst h
        simp [acceptedRoot, hasAcceptedExt, acceptedName, hx, hc]
  | dir readable es =>
    cases readable with
    | true =>
      simp only [get_videos, if_true] at h
      have := gvEntries_probe env cli hinc p es res h q
      simpa [acceptedRoot] using this
    | false =>
      simp only [get_videos, if_false, Bool.false_eq_true,
        Except.ok.injEq] at h
      subst h
      simp [acceptedRoot]

/-- Root-level form of `gwsEntries_char`: a successful
`get_videos_without_subs` selects exactly the reachable accepted-extension
files for which the subtitle probe reports false. -/
theorem get_videos_without_subs_char (env : Env) (cli : Cli) (p : Path)
    (root : RootFs) :
    ∀ res, get_videos_without_subs env cli p root = .ok res → ∀ q : Path,
      q ∈ res.1 ↔ (q ∈ acceptedRoot p root ∧
        check_for_subs env q = .ok (false, [.runFfprobeSubs q])) := by
  intro res h q
  cases root with
  | missing e =>
    simp only [get_videos_without_subs, Except.ok.injEq] at h
    subst h
    simp [acceptedRoot]
  | special =>
    simp only [get_videos_without_subs, Except.ok.injEq] at h
    subst h
    simp [acceptedRoot]
  | file =>
    cases hx : rustExtension (lastComp p) with
    | none => simp [get_videos_without_subs, gwsCandidate, hx] at h
    | some e0 =>
      by_cases hc : strLower e0 ∈ valid_extension
      · cases hp : check_for_subs env p with
        | error m =>
          simp [get_videos_without_subs, gwsCandidate, hx, hc, hp] at h
        | ok rb =>
          obtain ⟨b, evs⟩ := rb
          have hevs := check_for_subs_ok_events env _ b evs hp
          subst hevs
          have hEq : get_videos_without_subs env cli p .file
              = .ok (if b then [] else [p], [.runFfprobeSubs p]) := by
            simp [get_videos_without_subs, gwsCandidate, hx, hc, hp]
          rw [hEq] at h
          simp only [Except.ok.injEq] at h
          subst h
          constructor
          · intro hq
            cases b with
            | true => simp at hq
            | false =>
              simp at hq
              subst hq
              exact ⟨by simp [acceptedRoot, hasAcceptedExt, acceptedName,
                hx, hc], hp⟩
          · rintro ⟨hacc, hchk⟩
            simp [acceptedRoot, hasAcceptedExt, acceptedName, hx, hc] at hacc
            subst hacc
            rw [hp] at hchk
            simp only [Except.ok.injEq, Prod.mk.injEq] at hchk
            rw [hchk.1]
            simp
      · have hEq : get_videos_without_subs env cli p .file
            = .ok ([], []) := by
          simp [get_videos_without_subs, gwsCandidate, hx, hc]
        rw [hEq] at h
        simp only [Except.ok.injEq] at h
        subst h
        simp [acceptedRoot, hasAcceptedExt, acceptedName, hx, hc]
  | dir readable es =>
    cases readable with
    | true =>
      simp only [get_videos_without_subs, if_true] at h
      have := gwsEntries_char env cli p es res h q
      simpa [acceptedRoot] using this
    | false =>
      simp only [get_videos_without_subs, if_false, Bool.false_eq_true,
        Except.ok.injEq] at h
      subst h
      simp [acceptedRoot]

mutual
theorem mem_acceptedEntry_ext (parent : Path) :
    (e : FsEntry) → ∀ q, q ∈ acceptedEntry parent e →
      hasAcceptedExt q = true
  | .file name => by
    intro q hq
    by_cases hn : acceptedName name = true
    · simp only [acceptedEntry, hn, if_true, List.mem_singleton] at hq
      subst hq
      simpa [hasAcceptedExt, lastComp_append] using hn
    · simp [acceptedEntry, hn] at hq
  | .dir name readable es => by
    intro q hq
    cases readable with
    | true =>
      simp only [acceptedEntry, if_true] at hq
      exact mem_acceptedEntries_ext (parent ++ [name]) es q hq
    | false => simp [acceptedEntry] at hq

theorem mem_acceptedEntries_ext (parent : Path) :
    (es : List FsEntry) → ∀ q, q ∈ acceptedEntries parent es →
      hasAcceptedExt q = true
  | [] => by intro q hq; simp [acceptedEntries] at hq
  | e :: rest => by
    intro q hq
    simp only [acceptedEntries] at hq
    rcases List.mem_append.mp hq with h' | h'
    · exact mem_acceptedEntry_ext parent e q h'
    · exact mem_acceptedEntries_ext parent rest q h'
end

theorem mem_acceptedRoot_ext (p : Path) (root : RootFs) :
    ∀ q, q ∈ acceptedRoot p root → hasAcceptedExt q = true := by
  intro q hq
  cases root with
  | missing e => simp [acceptedRoot] at hq
  | special => simp [acceptedRoot] at hq
  | file =>
    by_cases hx : hasAcceptedExt p = true
    · simp only [acceptedRoot, hx, if_true, List.mem_singleton] at hq
      subst hq
      exact hx
    · simp [acceptedRoot, hx] at hq
  | dir readable es =>
    cases readable with
    | true =>
      exact mem_acceptedEntries_ext p es q (by simpa [acceptedRoot] using hq)
    | false => simp [acceptedRoot] at hq

/-! ## Claim C2: only accepted extensions are ever selected -/

/-- C2: every file a successful walk returns — for both `get_videos` and
`get_videos_without_subs`, on any root and at any nesting depth — has a
lowercase extension in the fixed accepted set. -/
theorem walks_accepted_extensions_c2 (env : Env) (cli : Cli) (p : Path)
    (root : RootFs) :
    (∀ res, get_videos env cli p root = .ok res →
      ∀ q ∈ res.1, hasAcceptedExt q = true) ∧
    (∀ res, get_videos_without_subs env cli p root = .ok res →
      ∀ q ∈ res.1, hasAcceptedExt q = true) := by
  constructor
  · intro res h q hq
    cases hinc : cli.include_h264 with
    | true =>
      have := (get_videos_include_char env cli hinc p root res h).1
      rw [this] at hq
      exact mem_acceptedRoot_ext p root q hq
    | false =>
      have := (get_videos_probe_char env cli hinc p root res h q).mp hq
      exact mem_acceptedRoot_ext p root q this.1
  · intro res h q hq
    have := (get_videos_without_subs_char env cli p root res h q).mp hq
    exact mem_acceptedRoot_ext p root q this.1

/-- Closed witness for C2 at a concrete walk result. -/
theorem walks_accepted_extensions_c2_witness :
    hasAcceptedExt ["d", "a.mp4"] = true :=
  (walks_accepted_extensions_c2 envW { cliDef with include_h264 := true }
      ["d"] (.dir true [.file "a.mp4"])).1 ([["d", "a.mp4"]], []) rfl
    ["d", "a.mp4"] (by simp)

/-! ## Claim C3: `include_h264` bypasses the codec probe -/

/-- C3: with `include_h264` set, a successful `get_videos` returns every
reachable accepted-extension file and never launches the codec probe; with
it unset, a file is selected iff it is a reachable accepted-extension file
on which `check_for_h264` returns false. -/
theorem include_h264_bypasses_probe_c3 (env : Env) (cli : Cli) (p : Path)
    (root : RootFs) :
    (cli.include_h264 = true →
      ∀ res, get_videos env cli p root = .ok res →
        res.1 = acceptedRoot p root ∧
        ∀ ev ∈ res.2, isCodecProbeEv ev = false) ∧
    (cli.include_h264 = false →
      ∀ res, get_videos env cli p root = .ok res → ∀ q : Path,
        q ∈ res.1 ↔ (q ∈ acceptedRoot p root ∧
          check_for_h264 env q = .ok (false, [.runFfprobeCodec q]))) :=
  ⟨fun h => get_videos_include_char env cli h p root,
   fun h => get_videos_probe_char env cli h p root⟩

/-- Closed witness for C3: both flag settings at a concrete directory. -/
theorem include_h264_bypasses_probe_c3_witness :
    ([["d", "a.mp4"]] : List Path)
        = acceptedRoot ["d"] (.dir true [.file "a.mp4"]) ∧
    (["d", "a.mp4"] ∈ ([["d", "a.mp4"]] : List Path) ↔
      (["d", "a.mp4"] ∈ acceptedRoot ["d"] (.dir true [.file "a.mp4"]) ∧
        check_for_h264 envW ["d", "a.mp4"]
          = .ok (false, [.runFfprobeCodec ["d", "a.mp4"]]))) :=
  ⟨((include_h264_bypasses_probe_c3 envW
        { cliDef with include_h264 := true } ["d"]
        (.dir true [.file "a.mp4"])).1 rfl ([["d", "a.mp4"]], []) rfl).1,
   (include_h264_bypasses_probe_c3 envW cliDef ["d"]
        (.dir true [.file "a.mp4"])).2 rfl
     ([["d", "a.mp4"]], [.runFfprobeCodec ["d", "a.mp4"]]) rfl
     ["d", "a.mp4"]⟩

/-! ## Claim C6: a candidate file without an extension is fatal -/

theorem check_for_h264_total (env : Env) (v : Path)
    (h : (env.codecStdout v).isSome = true) :
    ∃ b, check_for_h264 env v = .ok (b, [.runFfprobeCodec v]) := by
  cases hc : env.codecStdout v with
  | none => simp [hc] at h
  | some out =>
    by_cases hlen : out.length > 0
    · exact ⟨strTrim out == "h264", by simp [check_for_h264, hc, hlen]⟩
    · exact ⟨false, by simp [check_for_h264, hc, hlen]⟩

theorem check_for_subs_total (env : Env) (v : Path)
    (h : (env.subsStdout v).isSome = true) :
    ∃ b, check_for_subs env v = .ok (b, [.runFfprobeSubs v]) := by
  cases hc : env.subsStdout v with
  | none => simp [hc] at h
  | some out =>
    by_cases hlen : out.length > 0
    · exact ⟨true, by simp [check_for_subs, hc, hlen]⟩
    · exact ⟨env.srtExists (setExtension v "srt"),
        by simp [check_for_subs, hc, hlen]⟩

mutual
theorem gvEntry_noext (env : Env) (cli : Cli)
    (htot : ∀ r : Path, (env.codecStdout r).isSome = true) (parent : Path) :
    (e : FsEntry) →
      (∀ q, firstNoExtEntry parent e = some q →
        gvEntry env cli parent e = .error (noExtMsg q)) ∧
      (firstNoExtEntry parent e = none →
        ∃ res, gvEntry env cli parent e = .ok res)
  | .file name => by
    constructor
    · intro q hq
      cases hx : rustExtension name with
      | none =>
        simp only [firstNoExtEntry, hx, Option.some.injEq] at hq
        subst hq
        simp [gvEntry, gvCandidate, hx]
      | some e0 => simp [firstNoExtEntry, hx] at hq
    · intro hq
      cases hx : rustExtension name with
      | none => simp [firstNoExtEntry, hx] at hq
      | some e0 =>
        by_cases hc : strLower e0 ∈ valid_extension
        · by_cases hinc : cli.include_h264 = true
          · exact ⟨([parent ++ [name]], []),
              by simp [gvEntry, gvCandidate, hx, hc, hinc]⟩
          · obtain ⟨b, hchk⟩ :=
              check_for_h264_total env (parent ++ [name])
                (htot (parent ++ [name]))
            exact ⟨(if b then [] else [parent ++ [name]],
                [.runFfprobeCodec (parent ++ [name])]),
              by simp [gvEntry, gvCandidate, hx, hc, hinc, hchk]⟩
        · exact ⟨([], []), by simp [gvEntry, gvCandidate, hx, hc]⟩
  | .dir name readable es => by
    constructor
    · intro q hq
      cases readable with
      | true =>
        simp only [firstNoExtEntry, if_true] at hq
        have := (gvEntries_noext env cli htot (parent ++ [name]) es).1 q hq
        simpa [gvEntry] using this
      | false => simp [firstNoExtEntry] at hq
    · intro hq
      cases readable with
      | true =>
        simp only [firstNoExtEntry, if_true] at hq
        obtain ⟨res, hres⟩ :=
          (gvEntries_noext env cli htot (parent ++ [name]) es).2 hq
        exact ⟨res, by simpa [gvEntry] using hres⟩
      | false => exact ⟨([], []), by simp [gvEntry]⟩

theorem gvEntries_noext (env : Env) (cli : Cli)
    (htot : ∀ r : Path, (env.codecStdout r).isSome = true) (parent : Path) :
    (es : List FsEntry) →
      (∀ q, firstNoExtEntries parent es = some q →
        gvEntries env cli parent es = .error (noExtMsg q)) ∧
      (firstNoExtEntries parent es = none →
        ∃ res, gvEntries env cli parent es = .ok res)
  | [] => by
    constructor
    · intro q hq; simp [firstNoExtEntries] at hq
    · intro _; exact ⟨([], []), rfl⟩
  | e :: rest => by
    constructor
    · intro q hq
      simp only [firstNoExtEntries] at hq
      cases h1 : firstNoExtEntry parent e with
      | some q0 =>
        rw [h1] at hq
        simp only [Option.some.injEq] at hq
        subst hq
        have he := (gvEntry_noext env cli htot parent e).1 q0 h1
        simp [gvEntries, he]
      | none =>
        rw [h1] at hq
        obtain ⟨res1, hok⟩ := (gvEntry_noext env cli htot parent e).2 h1
        have hrec := (gvEntries_noext env cli htot parent rest).1 q hq
        obtain ⟨vs, evs⟩ := res1
        simp [gvEntries, hok, hrec]
    · intro hq
      simp only [firstNoExtEntries] at hq
      cases h1 : firstNoExtEntry parent e with
      | some q0 => rw [h1] at hq; simp at hq
      | none =>
        rw [h1] at hq
        obtain ⟨res1, hok⟩ := (gvEntry_noext env cli htot parent e).2 h1
        obtain ⟨res2, hok2⟩ := (gvEntries_noext env cli htot parent rest).2 hq
        obtain ⟨vs, evs⟩ := res1
        obtain ⟨vs2, evs2⟩ := res2
        exact ⟨(vs ++ vs2, evs ++ evs2), by simp [gvEntries, hok, hok2]⟩
end

mutual
theorem gwsEntry_noext (env : Env) (cli : Cli)
    (htot : ∀ r : Path, (env.subsStdout r).isSome = true) (parent : Path) :
    (e : FsEntry) →
      (∀ q, firstNoExtEntry parent e = some q →
        gwsEntry env cli parent e = .error (noExtMsg q)) ∧
      (firstNoExtEntry parent e = none →
        ∃ res, gwsEntry env cli parent e = .ok res)
  | .file name => by
    constructor
    · intro q hq
      cases hx : rustExtension name with
      | none =>
        simp only [firstNoExtEntry, hx, Option.some.injEq] at hq
        subst hq
        simp [gwsEntry, gwsCandidate, hx]
      | some e0 => simp [firstNoExtEntry, hx] at hq
    · intro hq
      cases hx : rustExtension name with
      | none => simp [firstNoExtEntry, hx] at hq
      | some e0 =>
        by_cases hc : strLower e0 ∈ valid_extension
        · obtain ⟨b, hchk⟩ :=
            check_for_subs_total env (parent ++ [name])
              (htot (parent ++ [name]))
          exact ⟨(if b then [] else [parent ++ [name]],
              [.runFfprobeSubs (parent ++ [name])]),
            by simp [gwsEntry, gwsCandidate, hx, hc, hchk]⟩
        · exact ⟨([], []), by simp [gwsEntry, gwsCandidate, hx, hc]⟩
  | .dir name readable es => by
    constructor
    · intro q hq
      cases readable with
      | true =>
        simp only [firstNoExtEntry, if_true] at hq
        have := (gwsEntries_noext env cli htot (parent ++ [name]) es).1 q hq
        simpa [gwsEntry] using this
      | false => simp [firstNoExtEntry] at hq
    · intro hq
      cases readable with
      | true =>
        simp only [firstNoExtEntry, if_true] at hq
        obtain ⟨res, hres⟩ :=
          (gwsEntries_noext env cli htot (parent ++ [name]) es).2 hq
        exact ⟨res, by simpa [gwsEntry] using hres⟩
      | false => exact ⟨([], []), by simp [gwsEntry]⟩

theorem gwsEntries_noext (env : Env) (cli : Cli)
    (htot : ∀ r : Path, (env.subsStdout r).isSome = true) (parent : Path) :
    (es : List FsEntry) →
      (∀ q, firstNoExtEntries parent es = some q →
        gwsEntries env cli parent es = .error (noExtMsg q)) ∧
      (firstNoExtEntries parent es = none →
        ∃ res, gwsEntries env cli parent es = .ok res)
  | [] => by
    constructor
    · intro q hq; simp [firstNoExtEntries] at hq
    · intro _; exact ⟨([], []), rfl⟩
  | e :: rest => by
    constructor
    · intro q hq
      simp only [firstNoExtEntries] at hq
      cases h1 : firstNoExtEntry parent e with
      | some q0 =>
        rw [h1] at hq
        simp only [Option.some.injEq] at hq
        subst hq
        have he := (gwsEntry_noext env cli htot parent e).1 q0 h1
        simp [gwsEntries, he]
      | none =>
        rw [h1] at hq
        obtain ⟨res1, hok⟩ := (gwsEntry_noext env cli htot parent e).2 h1
        have hrec := (gwsEntries_noext env cli htot parent rest).1 q hq
        obtain ⟨vs, evs⟩ := res1
        simp [gwsEntries, hok, hrec]
    · intro hq
      simp only [firstNoExtEntries] at hq
      cases h1 : firstNoExtEntry parent e with
      | some q0 => rw [h1] at hq; simp at hq
      | none =>
        rw [h1] at hq
        obtain ⟨res1, hok⟩ := (gwsEntry_noext env cli htot parent e).2 h1
        obtain ⟨res2, hok2⟩ :=
          (gwsEntries_noext env cli htot parent rest).2 hq
        obtain ⟨vs, evs⟩ := res1
        obtain ⟨vs2, evs2⟩ := res2
        exact ⟨(vs ++ vs2, evs ++ evs2), by simp [gwsEntries, hok, hok2]⟩
end

/-- C6: when the traversal (of either walk) encounters a candidate file
whose name has no extension — at the root or at any nesting depth — the
walk aborts with the fatal `.expect` failure naming the offending path
instead of silently skipping the file.  (The probe-totality hypotheses rule
out the walk having already aborted on a probe launch failure.) -/
theorem missing_extension_fatal_c6 (env : Env) (cli : Cli) (p : Path)
    (root : RootFs) (q : Path) :
    ((∀ r : Path, (env.codecStdout r).isSome = true) →
      firstNoExtRoot p root = some q →
      get_videos env cli p root
        = .error ("ERROR | No Extension found for file " ++ display q)) ∧
    ((∀ r : Path, (env.subsStdout r).isSome = true) →
      firstNoExtRoot p root = some q →
      get_videos_without_subs env cli p root
        = .error ("ERROR | No Extension found for file " ++ display q)) := by
  constructor
  · intro htot hq
    cases root with
    | missing e => simp [firstNoExtRoot] at hq
    | special => simp [firstNoExtRoot] at hq
    | file =>
      cases hx : rustExtension (lastComp p) with
      | none =>
        simp only [firstNoExtRoot, hx, Option.some.injEq] at hq
        subst hq
        simp [get_videos, gvCandidate, hx, noExtMsg]
      | some e0 => simp [firstNoExtRoot, hx] at hq
    | dir readable es =>
      cases readable with
      | true =>
        simp only [firstNoExtRoot, if_true] at hq
        have := (gvEntries_noext env cli htot p es).1 q hq
        simpa [get_videos, noExtMsg] using this
      | false => simp [firstNoExtRoot] at hq
  · intro htot hq
    cases root with
    | missing e => simp [firstNoExtRoot] at hq
    | special => simp [firstNoExtRoot] at hq
    | file =>
      cases hx : rustExtension (lastComp p) with
      | none =>
        simp only [firstNoExtRoot, hx, Option.some.injEq] at hq
        subst hq
        simp [get_videos_without_subs, gwsCandidate, hx, noExtMsg]
      | some e0 => simp [firstNoExtRoot, hx] at hq
    | dir readable es =>
      cases readable with
      | true =>
        simp only [firstNoExtRoot, if_true] at hq
        have := (gwsEntries_noext env cli htot p es).1 q hq
        simpa [get_videos_without_subs, noExtMsg] using this
      | false => simp [firstNoExtRoot] at hq

/-- Closed witness for C6: a nested extension-less file aborts both walks
with the message naming its path. -/
theorem missing_extension_fatal_c6_witness :
    get_videos envW cliDef ["d"] (.dir true [.dir "sub" true [.file "noext"]])
        = .error ("ERROR | No Extension found for file "
            ++ display ["d", "sub", "noext"]) ∧
    get_videos_without_subs envW cliDef ["d"]
        (.dir true [.dir "sub" true [.file "noext"]])
        = .error ("ERROR | No Extension found for file "
            ++ display ["d", "sub", "noext"]) :=
  ⟨(missing_extension_fatal_c6 envW cliDef ["d"]
      (.dir true [.dir "sub" true [.file "noext"]]) ["d", "sub", "noext"]).1
      (fun _ => rfl) rfl,
   (missing_extension_fatal_c6 envW cliDef ["d"]
      (.dir true [.dir "sub" true [.file "noext"]]) ["d", "sub", "noext"]).2
      (fun _ => rfl) rfl⟩

end Vidtoolkit
